import Mathlib

/-!
Verification of the p2pchat secure-channel core: a shallow embedding of the
Go sources (internal/encryption/enhanced.go, internal/discovery/discovery.go
and the network layer) together with theorems about the embedded operations.

Modelling conventions:
* Go byte slices and Go strings holding raw bytes are `List Nat` (each entry a
  byte value); peer ids and wire-format tag strings are Lean `String`.
* Go maps are association lists `List (String × α)` with `upsert`/`lookupA`
  mirroring map assignment (overwrite) and map lookup.
* Timestamps and durations are `Int` nanoseconds, as in Go's `time.Time` /
  `time.Duration` arithmetic (`time.Since t = now - t`).
* The cryptographic primitives that live in the Go standard library, not in
  this repository (SHA-256, ECDH, AES-GCM, JSON unmarshalling), enter the
  embedding as the parameter record `Prims`; theorems assume only the
  documented interface contracts of those primitives (fixed 32-byte hash
  output, AEAD round-trip, AEAD rejection of wrong keys and of modified
  ciphertexts, collision-freeness of the hash on the derivation inputs).
  Everything written in this repository is translated directly from source.
* Randomness (the 12 nonce bytes read from `rand.Reader`) is passed to the
  encryption operations as an explicit argument.
-/

/-- Mirrors Go map assignment `m[k] = v` on an association-list model. -/
def upsert {α : Type} : List (String × α) → String → α → List (String × α)
  | [], k, v => [(k, v)]
  | (k', v') :: t, k, v => if k' = k then (k, v) :: t else (k', v') :: upsert t k v

/-- Mirrors Go map lookup `m[k]` on an association-list model. -/
def lookupA {α : Type} : List (String × α) → String → Option α
  | [], _ => none
  | (k', v') :: t, k => if k' = k then some v' else lookupA t k

/-! ## Hex encoding (model of Go `encoding/hex`)

`EncodeToString` emits two lowercase hex characters per byte; `DecodeString`
fails on odd length or on any character that is not `0-9`, `a-f` or `A-F`
(Go's decoder accepts both letter cases, while the encoder only emits
lowercase). Characters are byte values. -/

/-- Lowercase hex digit character for a nibble, as emitted by Go's encoder. -/
def hexDigit (n : Nat) : Nat := if n < 10 then 48 + n else 87 + n

/-- Model of Go `hex.EncodeToString` (two lowercase digits per byte). -/
def hexEncode : List Nat → List Nat
  | [] => []
  | b :: t => hexDigit (b / 16) :: hexDigit (b % 16) :: hexEncode t

/-- Value of one hex character, case-insensitive, as in Go `hex.DecodeString`. -/
def hexVal (c : Nat) : Option Nat :=
  if 48 ≤ c ∧ c ≤ 57 then some (c - 48)
  else if 97 ≤ c ∧ c ≤ 102 then some (c - 87)
  else if 65 ≤ c ∧ c ≤ 70 then some (c - 55)
  else none

/-- Model of Go `hex.DecodeString`: fails on odd length or invalid character. -/
def hexDecode : List Nat → Option (List Nat)
  | [] => some []
  | [_] => none
  | c1 :: c2 :: t =>
    match hexVal c1, hexVal c2, hexDecode t with
    | some hi, some lo, some rest => some ((16 * hi + lo) :: rest)
    | _, _, _ => none

/-! ## P-256 public-key validation (model of Go `crypto/ecdh` `P256().NewPublicKey`)

Go rejects the key unless it is the 65-byte uncompressed encoding
`04 ‖ X ‖ Y` of a point on the NIST P-256 curve with both coordinates
reduced modulo the field prime. -/

/-- The NIST P-256 field prime `2^256 - 2^224 + 2^192 + 2^96 - 1`. -/
def p256P : Nat :=
  115792089210356248762697446949407573530086143415290314195533631308867097853951

/-- The NIST P-256 curve coefficient `b`. -/
def p256B : Nat :=
  41058363725152142129326129780047268409114441015993725554835256314039467401291

/-- Big-endian bytes to natural number. -/
def bytesToNat (l : List Nat) : Nat := l.foldl (fun acc b => acc * 256 + b) 0

/-- Model of Go `ecdh.P256().NewPublicKey` validity: 65 bytes, leading `0x04`,
coordinates below the prime, and `y² ≡ x³ - 3x + b (mod p)`. -/
def validP256PublicKey (key : List Nat) : Bool :=
  key.length == 65 && key.getD 0 0 == 4 &&
  (let x := bytesToNat ((key.drop 1).take 32)
   let y := bytesToNat (key.drop 33)
   decide (x < p256P) && decide (y < p256P) &&
     ((y * y) % p256P == (x * x * x + p256B + (p256P - 3) * x) % p256P))

/-! ## External primitives

The cryptographic and serialization primitives used by the repository live in
the Go standard library, not in the repository itself; the embedding abstracts
them as a parameter record. `sha256` models `crypto/sha256.Sum256`;
`ecdhShared` models `priv.ECDH(pub)` for the process's fixed private key
(its argument is the peer public-key bytes); `gcmSeal`/`gcmOpen` model
AES-256-GCM `Seal`/`Open` with empty additional data (`gcmOpen` returns `none`
exactly when Go's `Open` returns an authentication error);
`unmarshalDiscovery`/`unmarshalHandshake` model `json.Unmarshal` into the
respective wire structures (`none` exactly when Go returns an error). -/

/-- Discovery/handshake wire identity, from `protocol.User`. -/
structure User where
  id : String
  username : String
  publicKey : List Nat
  address : String
  online : Bool
deriving DecidableEq, Repr

/-- Wire form of a discovery datagram, from `discovery.DiscoveryMessage`. -/
structure DiscoveryMessage where
  type : String
  user : User
  timestamp : Int
deriving DecidableEq, Repr

/-- Wire form of a handshake line, from `protocol.HandshakeData`. -/
structure HandshakeData where
  user : User
  version : String
  timestamp : Int
deriving DecidableEq, Repr

/-- The standard-library primitives the repository calls, as parameters. -/
structure Prims where
  sha256 : List Nat → List Nat
  ecdhShared : List Nat → List Nat
  gcmSeal : List Nat → List Nat → List Nat → List Nat
  gcmOpen : List Nat → List Nat → List Nat → Option (List Nat)
  unmarshalDiscovery : List Nat → Option DiscoveryMessage
  unmarshalHandshake : List Nat → Option HandshakeData

/-! ## Encryption module (internal/encryption/enhanced.go) -/

/-- Error values returned by the embedded operations, one constructor per
distinct error site in the source. -/
inductive GoError where
  | invalidPublicKey
  | noSharedKey
  | noChainKey
  | messageKeyNotFound
  | invalidHex
  | invalidKeySize
  | authenticationFailed
  | writeFailed
  | readFailed
  | parseFailed
deriving DecidableEq, Repr

/-- Result of a Go call that can also panic (`crash` models a runtime panic). -/
inductive GoResult (α : Type) where
  | ok : α → GoResult α
  | err : GoError → GoResult α
  | crash : GoResult α
deriving DecidableEq, Repr

/-- From `encryption.EncryptedMessage`: nonce and ciphertext are hex strings
(stored here as character-byte lists), `keyId` is the sender's peer id. -/
structure EncryptedMessage where
  nonce : List Nat
  ciphertext : List Nat
  keyId : String
deriving DecidableEq, Repr

/-- From `encryption.KeyManager` (the private key is fixed inside
`Prims.ecdhShared`, so only the per-peer key table is state). -/
structure KeyManager where
  peerKeys : List (String × List Nat)
deriving DecidableEq, Repr

/-- From `KeyManager.EstablishSharedKey`: validate the peer public key,
run ECDH, hash the shared secret with SHA-256 and store it under the peer id.
Returns the Go error value and the (possibly updated) receiver. -/
def EstablishSharedKey (π : Prims) (km : KeyManager) (userID : String)
    (peerPubKeyBytes : List Nat) : Option GoError × KeyManager :=
  if validP256PublicKey peerPubKeyBytes then
    (none, ⟨upsert km.peerKeys userID (π.sha256 (π.ecdhShared peerPubKeyBytes))⟩)
  else
    (some .invalidPublicKey, km)

/-- From `KeyManager.encryptWithKey`: AES-GCM-seal under `key` with the 12
random nonce bytes (passed explicitly here), hex-encoding nonce and
ciphertext. `aes.NewCipher` only fails when the key is not 16/24/32 bytes. -/
def encryptWithKey (π : Prims) (key plaintext : List Nat) (keyID : String)
    (nonce : List Nat) : Except GoError EncryptedMessage :=
  if key.length = 16 ∨ key.length = 24 ∨ key.length = 32 then
    .ok ⟨hexEncode nonce, hexEncode (π.gcmSeal key nonce plaintext), keyID⟩
  else
    .error .invalidKeySize

/-- From `KeyManager.decryptWithKey`: hex-decode nonce and ciphertext, build
the cipher, and AES-GCM-open; an authentication failure surfaces as an error
and no plaintext. -/
def decryptWithKey (π : Prims) (key : List Nat) (encMsg : EncryptedMessage) :
    Except GoError (List Nat) :=
  match hexDecode encMsg.nonce with
  | none => .error .invalidHex
  | some nonce =>
    match hexDecode encMsg.ciphertext with
    | none => .error .invalidHex
    | some ciphertext =>
      if key.length = 16 ∨ key.length = 24 ∨ key.length = 32 then
        match π.gcmOpen key nonce ciphertext with
        | none => .error .authenticationFailed
        | some plaintext => .ok plaintext
      else
        .error .invalidKeySize

/-- Byte lists of the four domain-separation tag strings in the source:
`"root"`, `"chain"`, `"message"`, `"advance"`. -/
def rootTag : List Nat := [114, 111, 111, 116]

def chainTag : List Nat := [99, 104, 97, 105, 110]

def messageTag : List Nat := [109, 101, 115, 115, 97, 103, 101]

def advanceTag : List Nat := [97, 100, 118, 97, 110, 99, 101]

/-- From `encryption.ForwardSecureEncryption` (the embedded `KeyManager` is
passed separately where needed). -/
structure FSE where
  rootKeys : List (String × List Nat)
  chainKeys : List (String × List Nat)
  messageKeys : List (String × List (List Nat))
deriving DecidableEq, Repr

/-- From `ForwardSecureEncryption.InitializeWithPeer`: requires an established
shared key; derives the root and chain keys by domain-separated hashing and
resets the issued-message-key history to empty. -/
def InitializeWithPeer (π : Prims) (km : KeyManager) (f : FSE) (userID : String) :
    Option GoError × FSE :=
  match lookupA km.peerKeys userID with
  | none => (some .noSharedKey, f)
  | some sharedKey =>
    (none,
     ⟨upsert f.rootKeys userID (π.sha256 (sharedKey ++ rootTag)),
      upsert f.chainKeys userID (π.sha256 (sharedKey ++ chainTag)),
      upsert f.messageKeys userID []⟩)

/-- From `ForwardSecureEncryption.EncryptMessage`: derive the message key from
the current chain key, replace the chain key, append the message key to the
issued history, then seal the plaintext under the message key. The state
mutations happen before `encryptWithKey` runs, exactly as in the source. -/
def EncryptMessage (π : Prims) (f : FSE) (userID : String)
    (plaintext nonce : List Nat) : Except GoError EncryptedMessage × FSE :=
  match lookupA f.chainKeys userID with
  | none => (.error .noChainKey, f)
  | some chainKey =>
    let messageKey := π.sha256 (chainKey ++ messageTag)
    let f' : FSE :=
      ⟨f.rootKeys,
       upsert f.chainKeys userID (π.sha256 (chainKey ++ advanceTag)),
       upsert f.messageKeys userID
         ((lookupA f.messageKeys userID).getD [] ++ [messageKey])⟩
    (encryptWithKey π messageKey plaintext userID nonce, f')

/-- From `ForwardSecureEncryption.DecryptMessage`: the source guards
`!exists || messageIndex >= len(messageKeys)` and then indexes the slice, so a
negative index reaches `messageKeys[messageIndex]` and panics (`crash`). -/
def DecryptMessage (π : Prims) (f : FSE) (userID : String)
    (encMsg : EncryptedMessage) (messageIndex : Int) : GoResult (List Nat) :=
  match lookupA f.messageKeys userID with
  | none => .err .messageKeyNotFound
  | some keys =>
    if (keys.length : Int) ≤ messageIndex then .err .messageKeyNotFound
    else if messageIndex < 0 then .crash
    else
      match decryptWithKey π (keys.getD messageIndex.toNat []) encMsg with
      | .ok plaintext => .ok plaintext
      | .error e => .err e

/-! ## Discovery service (internal/discovery/discovery.go) -/

/-- From `discovery.PeerInfo`. -/
structure PeerInfo where
  address : String
  user : User
  lastSeen : Int
  online : Bool
deriving DecidableEq, Repr

/-- The mutable state of `discovery.DiscoveryService` relevant to the peer
table (port, socket and running flag are connection plumbing). -/
structure DiscoveryState where
  peers : List (String × PeerInfo)
  localUser : User
deriving DecidableEq, Repr

/-- `5 * time.Minute` in nanoseconds. -/
def fiveMinutes : Int := 300000000000

/-- A datagram written to the UDP socket (`conn.WriteTo(data, addr)`). -/
structure SentPacket where
  msg : DiscoveryMessage
  destAddr : String
deriving DecidableEq, Repr

/-- From `DiscoveryService.GetPeers`: snapshot of entries seen within the last
five minutes (`time.Since(peer.LastSeen) < 5*time.Minute`); each returned
entry is marked `Online = true`, and because the Go table stores pointers the
mark is also visible in the table, which the second component models. -/
def GetPeers (s : DiscoveryState) (now : Int) : List PeerInfo × DiscoveryState :=
  (s.peers.filterMap (fun kv =>
     if now - kv.2.lastSeen < fiveMinutes then some { kv.2 with online := true }
     else none),
   { s with peers := s.peers.map (fun kv =>
       if now - kv.2.lastSeen < fiveMinutes then (kv.1, { kv.2 with online := true })
       else kv) })

/-- From `DiscoveryService.handleDiscoveryMessage`: overwrite the sender's
table entry with the observed source IP and a fresh `LastSeen`, and send a
unicast `response` datagram iff the received type is `announce`. -/
def handleDiscoveryMessage (s : DiscoveryState) (msg : DiscoveryMessage)
    (addrIP addrFull : String) (now : Int) : DiscoveryState × List SentPacket :=
  ({ s with peers := upsert s.peers msg.user.id ⟨addrIP, msg.user, now, true⟩ },
   if msg.type = "announce" then [⟨⟨"response", s.localUser, now⟩, addrFull⟩]
   else [])

/-- One iteration of `DiscoveryService.listenLoop` on a received datagram:
drop it if it fails to deserialize or if the sender id equals the local id,
otherwise hand it to `handleDiscoveryMessage`. -/
def listenStep (π : Prims) (s : DiscoveryState) (raw : List Nat)
    (addrIP addrFull : String) (now : Int) : DiscoveryState × List SentPacket :=
  match π.unmarshalDiscovery raw with
  | none => (s, [])
  | some msg =>
    if msg.user.id = s.localUser.id then (s, [])
    else handleDiscoveryMessage s msg addrIP addrFull now

/-! ## Network layer (`network.EnhancedP2PNetwork`) -/

/-- From `network.EnhancedPeer` (the `net.Conn` handle is identified by the
session itself and carries no observable state in the embedding). -/
structure EnhancedPeer where
  user : User
  lastSeen : Int
  verified : Bool
deriving DecidableEq, Repr

/-- The session table of `network.EnhancedP2PNetwork`. -/
structure NetState where
  peers : List (String × EnhancedPeer)
deriving DecidableEq, Repr

/-- The observable behaviour of one TCP connection during a handshake:
whether writing our handshake line succeeds, and the line read from the peer
(`none` when the connection closes or errors before a complete line). -/
structure ConnIO where
  sendOk : Bool
  recvLine : Option (List Nat)
deriving DecidableEq, Repr

/-- From `EnhancedP2PNetwork.performHandshake`: marshal and write our own
handshake, read one line, unmarshal it, and build the peer record with
`Verified: true`. No field of the received handshake — in particular not
`Version` — is inspected. -/
def performHandshake (π : Prims) (io : ConnIO) (now : Int) :
    Except GoError EnhancedPeer :=
  if io.sendOk then
    match io.recvLine with
    | none => .error .readFailed
    | some line =>
      match π.unmarshalHandshake line with
      | none => .error .parseFailed
      | some hs => .ok ⟨hs.user, now, true⟩
  else
    .error .writeFailed

/-- From `EnhancedP2PNetwork.handleConnection`: on handshake success the peer
is stored in the session table under the id the remote claimed; on failure the
connection is closed and the table is untouched. -/
def handleConnection (π : Prims) (s : NetState) (io : ConnIO) (now : Int) :
    Except GoError Unit × NetState :=
  match performHandshake π io now with
  | .error e => (.error e, s)
  | .ok peer => (.ok (), ⟨upsert s.peers peer.user.id peer⟩)

/-- The three events that mutate the session table in the source:
a connection attempt (`handleConnection`), the exit of a session's receive
loop (`delete(n.peers, ...)` in `handlePeerMessages`), and a received
application message (`peer.LastSeen = time.Now()`). -/
inductive NetEvent where
  | connect (io : ConnIO) (now : Int)
  | disconnect (id : String)
  | messageFrom (id : String) (now : Int)

/-- Applies one session-table event, following the source. -/
def applyNetEvent (π : Prims) (s : NetState) (e : NetEvent) : NetState :=
  match e with
  | .connect io now => (handleConnection π s io now).2
  | .disconnect id => ⟨s.peers.filter (fun kv => !(kv.1 == id))⟩
  | .messageFrom id now =>
    ⟨s.peers.map (fun kv =>
       if kv.1 = id then (kv.1, { kv.2 with lastSeen := now }) else kv)⟩

/-- Session-table states reachable from the empty table of
`NewEnhancedP2PNetwork` by any sequence of events. -/
inductive ReachableNet (π : Prims) : NetState → Prop where
  | init : ReachableNet π ⟨[]⟩
  | step {s : NetState} (e : NetEvent) :
      ReachableNet π s → ReachableNet π (applyNetEvent π s e)

/-! ## Concrete model primitives

Witness instantiations of `Prims`. `tseal`/`topen` form an executable AEAD
that satisfies, unconditionally, the contracts assumed of AES-GCM in the
theorems below: round-trip, rejection under a different key, and rejection of
any ciphertext in which a single position was altered (every sealed value
carries the plaintext twice, so the images of distinct inputs are at distance
at least two). `mhash` is a 32-byte-output hash given by a lookup table on the
inputs the witnesses exercise. -/

/-- A 32-byte value whose last byte is `b`. -/
def key256 (b : Nat) : List Nat := List.replicate 31 0 ++ [b]

/-- Table-based 32-byte hash used by the witnesses. -/
def mhash (l : List Nat) : List Nat :=
  if l = [1] ++ chainTag then key256 1
  else if l = key256 1 ++ advanceTag then key256 2
  else if l = key256 1 ++ messageTag then key256 3
  else if l = key256 2 ++ messageTag then key256 4
  else key256 0

/-- Model AEAD seal: the plaintext, the key, the nonce, the plaintext again. -/
def tseal (key nonce pt : List Nat) : List Nat := pt ++ (key ++ (nonce ++ pt))

/-- Model AEAD open: recover the candidate plaintext from the length, then
check the whole redundant structure; any mismatch is an authentication
failure (`none`). -/
def topen (key nonce ct : List Nat) : Option (List Nat) :=
  if key.length = 32 ∧ nonce.length = 12 ∧ 44 ≤ ct.length ∧ (ct.length - 44) % 2 = 0 then
    if ct = ct.take ((ct.length - 44) / 2) ++ (key ++ (nonce ++ ct.take ((ct.length - 44) / 2)))
    then some (ct.take ((ct.length - 44) / 2)) else none
  else none

/-- Concrete identities used by the witness instantiations. -/
def userA : User := ⟨"peerA", "alice", [1], "10.0.0.1", true⟩

def userB : User := ⟨"peerB", "bob", [2], "10.0.0.2", true⟩

def localUserM : User := ⟨"localid", "me", [0], "10.0.0.9", true⟩

/-- Witness JSON decoder for discovery datagrams: three known byte strings
decode to fixed messages, everything else fails. -/
def mUnmarshalDiscovery (l : List Nat) : Option DiscoveryMessage :=
  if l = [1] then some ⟨"announce", userB, 0⟩
  else if l = [2] then some ⟨"response", userB, 0⟩
  else if l = [3] then some ⟨"announce", localUserM, 0⟩
  else none

/-- Witness JSON decoder for handshake lines: two known byte strings decode
to handshakes that differ only in the version field, everything else fails. -/
def mUnmarshalHandshake (l : List Nat) : Option HandshakeData :=
  if l = [1] then some ⟨userA, "1.0", 0⟩
  else if l = [2] then some ⟨userA, "99.7", 0⟩
  else none

/-- The concrete primitive instantiation used by the witnesses. -/
def modelPrims : Prims :=
  ⟨mhash, fun _ => key256 7, tseal, topen, mUnmarshalDiscovery, mUnmarshalHandshake⟩

/-- An `FSE` state in which two message keys have been issued for `"p"`,
as it stands after two `EncryptMessage` calls. -/
def fseTwoKeys : FSE := ⟨[], [("p", key256 5)], [("p", [key256 3, key256 4])]⟩

/-! ## Library lemmas about the embedding -/

theorem lookupA_upsert_self {α : Type} (l : List (String × α)) (k : String) (v : α) :
    lookupA (upsert l k v) k = some v := by
  induction l with
  | nil => simp [upsert, lookupA]
  | cons h t ih =>
    obtain ⟨k', v'⟩ := h
    by_cases hk : k' = k <;> simp [upsert, lookupA, hk, ih]

theorem lookupA_upsert_ne {α : Type} (l : List (String × α)) (k k' : String) (v : α)
    (h : k' ≠ k) : lookupA (upsert l k v) k' = lookupA l k' := by
  have hne : ¬(k = k') := fun he => h he.symm
  induction l with
  | nil => simp [upsert, lookupA, hne]
  | cons hd t ih =>
    obtain ⟨k₀, v₀⟩ := hd
    by_cases hk : k₀ = k
    · subst hk
      simp [upsert, lookupA, hne]
    · simp [upsert, lookupA, hk, ih]

theorem hexVal_hexDigit : ∀ n < 16, hexVal (hexDigit n) = some n := by decide

theorem length_hexEncode (l : List Nat) : (hexEncode l).length = 2 * l.length := by
  induction l with
  | nil => rfl
  | cons b t ih => simp [hexEncode, ih]; omega

theorem hexDecode_hexEncode (l : List Nat) (h : ∀ x ∈ l, x < 256) :
    hexDecode (hexEncode l) = some l := by
  induction l with
  | nil => rfl
  | cons b t ih =>
    have hb : b < 256 := h b (by simp)
    have h1 : hexVal (hexDigit (b / 16)) = some (b / 16) :=
      hexVal_hexDigit _ (by omega)
    have h2 : hexVal (hexDigit (b % 16)) = some (b % 16) :=
      hexVal_hexDigit _ (by omega)
    have ht : hexDecode (hexEncode t) = some t := ih (fun x hx => h x (by simp [hx]))
    simp [hexEncode, hexDecode, h1, h2, ht]
    omega

theorem set_getD_self : ∀ (l : List Nat) (i : Nat), l.set i (l.getD i 0) = l
  | [], _ => rfl
  | _ :: _, 0 => by simp [List.set]
  | a :: t, (i+1) => by
      simpa [List.set] using set_getD_self t i

/-- Decoding a hex string in which exactly one character position has been
overwritten: an invalid character makes the decode fail; a valid character
changes (only) the corresponding nibble of the corresponding byte. -/
theorem hexDecode_set (l : List Nat) (hB : ∀ x ∈ l, x < 256) :
    ∀ (i : Nat), i < (hexEncode l).length → ∀ (v : Nat),
    hexDecode ((hexEncode l).set i v) =
      match hexVal v with
      | none => none
      | some w => some (l.set (i / 2)
          (if i % 2 = 0 then 16 * w + (l.getD (i / 2) 0) % 16
           else 16 * ((l.getD (i / 2) 0) / 16) + w)) := by
  induction l with
  | nil => intro i hi; simp [hexEncode] at hi
  | cons b t ih =>
    intro i hi v
    have hb : b < 256 := hB b (by simp)
    have h1 : hexVal (hexDigit (b / 16)) = some (b / 16) :=
      hexVal_hexDigit _ (by omega)
    have h2 : hexVal (hexDigit (b % 16)) = some (b % 16) :=
      hexVal_hexDigit _ (by omega)
    have ht : hexDecode (hexEncode t) = some t :=
      hexDecode_hexEncode t (fun x hx => hB x (by simp [hx]))
    cases i with
    | zero =>
      rcases hv : hexVal v with _ | w <;>
        simp [hexEncode, List.set, hexDecode, hv, h2, ht]
    | succ i' =>
      cases i' with
      | zero =>
        rcases hv : hexVal v with _ | w <;>
          simp [hexEncode, List.set, hexDecode, hv, h1, ht]
      | succ j =>
        have hj : j < (hexEncode t).length := by
          simp [hexEncode] at hi; omega
        have hrec := ih (fun x hx => hB x (by simp [hx])) j hj v
        have hdiv : (j + 1 + 1) / 2 = j / 2 + 1 := by omega
        have hmod : (j + 1 + 1) % 2 = j % 2 := by omega
        rcases hv : hexVal v with _ | w
        · simp [hexEncode, List.set, hexDecode, h1, h2, hv] at hrec ⊢
          simp [hrec]
        · simp [hexEncode, List.set, hexDecode, h1, h2, hv, hdiv, hmod] at hrec ⊢
          simp [hrec]
          omega

theorem length_key256 (b : Nat) : (key256 b).length = 32 := by simp [key256]

theorem length_mhash (l : List Nat) : (mhash l).length = 32 := by
  unfold mhash
  repeat' split
  all_goals exact length_key256 _

theorem mhash_bytes (l : List Nat) : ∀ x ∈ mhash l, x < 256 := by
  unfold mhash
  repeat' split
  all_goals intro x hx
  all_goals simp [key256, List.mem_replicate] at hx
  all_goals omega

theorem length_tseal (key nonce pt : List Nat) :
    (tseal key nonce pt).length = pt.length + (key.length + (nonce.length + pt.length)) := by
  simp [tseal]

theorem tseal_bytes {key nonce pt : List Nat} (hkB : ∀ x ∈ key, x < 256)
    (hnB : ∀ x ∈ nonce, x < 256) (hpB : ∀ x ∈ pt, x < 256) :
    ∀ x ∈ tseal key nonce pt, x < 256 := by
  intro x hx
  simp only [tseal, List.mem_append] at hx
  rcases hx with h | h | h | h
  · exact hpB x h
  · exact hkB x h
  · exact hnB x h
  · exact hpB x h

theorem getD_append_left {l1 l2 : List Nat} {i : Nat} (h : i < l1.length) :
    (l1 ++ l2).getD i 0 = l1.getD i 0 := by
  rw [List.getD_eq_getElem?_getD, List.getD_eq_getElem?_getD, List.getElem?_append_left h]

theorem getD_append_right {l1 l2 : List Nat} {i : Nat} (h : l1.length ≤ i) :
    (l1 ++ l2).getD i 0 = l2.getD (i - l1.length) 0 := by
  rw [List.getD_eq_getElem?_getD, List.getD_eq_getElem?_getD, List.getElem?_append_right h]

theorem getD_set_self {l : List Nat} {i : Nat} {v : Nat} (h : i < l.length) :
    (l.set i v).getD i 0 = v := by
  rw [List.getD_eq_getElem?_getD, List.getElem?_set_self h]
  rfl

theorem topen_tseal (key nonce pt : List Nat) (hk : key.length = 32)
    (hn : nonce.length = 12) : topen key nonce (tseal key nonce pt) = some pt := by
  have hlen : (tseal key nonce pt).length = 2 * pt.length + 44 := by
    rw [length_tseal, hk, hn]; omega
  have hl : ((tseal key nonce pt).length - 44) / 2 = pt.length := by omega
  have htake : (tseal key nonce pt).take pt.length = pt := by
    exact List.take_left' rfl
  rw [topen, if_pos (by constructor <;> [exact hk; constructor <;> [exact hn; omega]]),
    hl, htake]
  exact if_pos rfl

theorem topen_wrong_key (key key' nonce pt : List Nat) (hk : key.length = 32)
    (hk' : key'.length = 32) (hn : nonce.length = 12) (hne : key' ≠ key) :
    topen key' nonce (tseal key nonce pt) = none := by
  have hlen : (tseal key nonce pt).length = 2 * pt.length + 44 := by
    rw [length_tseal, hk, hn]; omega
  have hl : ((tseal key nonce pt).length - 44) / 2 = pt.length := by omega
  have htake : (tseal key nonce pt).take pt.length = pt := by
    exact List.take_left' rfl
  have hcond : ¬(tseal key nonce pt = pt ++ (key' ++ (nonce ++ pt))) := by
    intro heq
    rw [tseal] at heq
    have h2 := List.append_cancel_left heq
    exact hne (List.append_inj_left h2 (by rw [hk, hk'])).symm
  rw [topen, if_pos (by constructor <;> [exact hk'; constructor <;> [exact hn; omega]]),
    hl, htake, if_neg hcond]

theorem topen_tamper (key nonce pt : List Nat) (hk : key.length = 32)
    (hn : nonce.length = 12) (i : Nat) (v : Nat)
    (hi : i < (tseal key nonce pt).length)
    (hv : v ≠ (tseal key nonce pt).getD i 0) :
    topen key nonce ((tseal key nonce pt).set i v) = none := by
  have hlen : (tseal key nonce pt).length = 2 * pt.length + 44 := by
    rw [length_tseal, hk, hn]; omega
  have hlen' : ((tseal key nonce pt).set i v).length = 2 * pt.length + 44 := by
    rw [List.length_set, hlen]
  have hl : (((tseal key nonce pt).set i v).length - 44) / 2 = pt.length := by omega
  rw [topen, if_pos (by constructor <;> [exact hk; constructor <;> [exact hn; omega]]), hl]
  rcases Nat.lt_or_ge i pt.length with hil | hil
  · -- the alteration lands in the first plaintext copy
    have hset : (tseal key nonce pt).set i v = pt.set i v ++ (key ++ (nonce ++ pt)) := by
      rw [tseal, List.set_append_left _ _ hil]
    have htake : ((tseal key nonce pt).set i v).take pt.length = pt.set i v := by
      rw [hset]; exact List.take_left' (by rw [List.length_set])
    rw [htake, if_neg]
    intro heq
    rw [hset] at heq
    have h2 := List.append_cancel_left heq
    have h3 := List.append_cancel_left h2
    have h4 := List.append_cancel_left h3
    have h5 : pt.getD i 0 = v := by
      conv_lhs => rw [h4]
      exact getD_set_self hil
    apply hv
    have hts : (tseal key nonce pt).getD i 0 = pt.getD i 0 := by
      rw [tseal]; exact getD_append_left hil
    rw [hts]
    exact h5.symm
  · -- the alteration lands at or after the key segment
    have hrest : i - pt.length < (key ++ (nonce ++ pt)).length := by
      simp only [List.length_append]
      omega
    have hset : (tseal key nonce pt).set i v
        = pt ++ ((key ++ (nonce ++ pt)).set (i - pt.length) v) := by
      rw [tseal, List.set_append_right _ _ hil]
    have htake : ((tseal key nonce pt).set i v).take pt.length = pt := by
      rw [hset]; exact List.take_left' rfl
    rw [htake, if_neg]
    intro heq
    rw [hset] at heq
    have h2 := List.append_cancel_left heq
    have h5 : v = (key ++ (nonce ++ pt)).getD (i - pt.length) 0 := by
      conv_rhs => rw [← h2]
      exact (getD_set_self hrest).symm
    apply hv
    have hts : (tseal key nonce pt).getD i 0
        = (key ++ (nonce ++ pt)).getD (i - pt.length) 0 := by
      rw [tseal]; exact getD_append_right hil
    rw [hts]
    exact h5

theorem mem_upsert {α : Type} {l : List (String × α)} {k : String} {v : α} :
    ∀ kv ∈ upsert l k v, kv ∈ l ∨ kv = (k, v) := by
  induction l with
  | nil => intro kv hkv; simp [upsert] at hkv; right; exact hkv
  | cons hd t ih =>
    obtain ⟨k₀, v₀⟩ := hd
    intro kv hkv
    by_cases hk : k₀ = k
    · simp [upsert, hk] at hkv
      rcases hkv with h | h
      · right; simp [h]
      · left; simp [h]
    · simp [upsert, hk] at hkv
      rcases hkv with h | h
      · left; simp [h]
      · rcases ih kv h with h' | h'
        · left; simp [h']
        · right; exact h'

/-! ## Claims -/

/-- C4: for every byte sequence that is not a valid P-256 point encoding,
`EstablishSharedKey` returns the invalid-peer-key error and the per-peer
key table is left unchanged — no key is stored. -/
theorem establishSharedKey_invalid_key (π : Prims) (km : KeyManager)
    (userID : String) (b : List Nat) (h : validP256PublicKey b = false) :
    EstablishSharedKey π km userID b = (some GoError.invalidPublicKey, km) := by
  simp [EstablishSharedKey, h]

theorem establishSharedKey_invalid_key_witness :
    validP256PublicKey [49, 50, 51, 52, 53, 54, 55, 56, 57, 48] = false ∧
    EstablishSharedKey modelPrims ⟨[("other", [9])]⟩ "peerB"
        [49, 50, 51, 52, 53, 54, 55, 56, 57, 48]
      = (some GoError.invalidPublicKey, ⟨[("other", [9])]⟩) :=
  ⟨by decide,
   establishSharedKey_invalid_key modelPrims ⟨[("other", [9])]⟩ "peerB"
     [49, 50, 51, 52, 53, 54, 55, 56, 57, 48] (by decide)⟩

/-- C5: `InitializeWithPeer` fails with the no-shared-key error and leaves the
ratchet state unchanged when no shared key is established; with a shared key
`sk` it succeeds and sets the root key to `H(sk ‖ "root")` and the chain key
to `H(sk ‖ "chain")`, two domain-separated hashes of the same input. -/
theorem initializeRatchet_spec (π : Prims) (km : KeyManager) (f : FSE)
    (userID : String) :
    (lookupA km.peerKeys userID = none →
      InitializeWithPeer π km f userID = (some GoError.noSharedKey, f)) ∧
    (∀ sk, lookupA km.peerKeys userID = some sk →
      (InitializeWithPeer π km f userID).1 = none ∧
      lookupA (InitializeWithPeer π km f userID).2.rootKeys userID
        = some (π.sha256 (sk ++ rootTag)) ∧
      lookupA (InitializeWithPeer π km f userID).2.chainKeys userID
        = some (π.sha256 (sk ++ chainTag))) := by
  constructor
  · intro h
    simp [InitializeWithPeer, h]
  · intro sk h
    refine ⟨by simp [InitializeWithPeer, h], ?_, ?_⟩ <;>
      simp [InitializeWithPeer, h, lookupA_upsert_self]

theorem initializeRatchet_spec_witness :
    InitializeWithPeer modelPrims ⟨[("p", [1])]⟩ ⟨[], [], []⟩ "q"
      = (some GoError.noSharedKey, ⟨[], [], []⟩) ∧
    lookupA (InitializeWithPeer modelPrims ⟨[("p", [1])]⟩ ⟨[], [], []⟩ "p").2.chainKeys "p"
      = some (mhash ([1] ++ chainTag)) :=
  ⟨(initializeRatchet_spec modelPrims ⟨[("p", [1])]⟩ ⟨[], [], []⟩ "q").1 (by decide),
   ((initializeRatchet_spec modelPrims ⟨[("p", [1])]⟩ ⟨[], [], []⟩ "p").2 [1]
     (by decide)).2.2⟩

/-- C9 (implicit): for any ratchet state — in particular one in which message
keys have already been issued — re-running the ratchet initialization for a
peer with an established shared key resets the issued-message-key sequence to
empty, so decryption fails afterwards at every previously issued index. -/
theorem reinitialize_resets_message_keys (π : Prims) (km : KeyManager) (f : FSE)
    (userID : String) (sk : List Nat) (h : lookupA km.peerKeys userID = some sk) :
    (InitializeWithPeer π km f userID).1 = none ∧
    lookupA (InitializeWithPeer π km f userID).2.messageKeys userID = some [] ∧
    ∀ (i : Int), 0 ≤ i → ∀ (encMsg : EncryptedMessage),
      DecryptMessage π (InitializeWithPeer π km f userID).2 userID encMsg i
        = .err .messageKeyNotFound := by
  refine ⟨by simp [InitializeWithPeer, h], by simp [InitializeWithPeer, h, lookupA_upsert_self], ?_⟩
  intro i hi encMsg
  have hm : lookupA (InitializeWithPeer π km f userID).2.messageKeys userID = some [] := by
    simp [InitializeWithPeer, h, lookupA_upsert_self]
  simp [DecryptMessage, hm, hi]

theorem reinitialize_resets_message_keys_witness :
    lookupA (KeyManager.mk [("p", [1])]).peerKeys "p" = some [1] ∧
    DecryptMessage modelPrims
        (InitializeWithPeer modelPrims ⟨[("p", [1])]⟩ fseTwoKeys "p").2 "p"
        ⟨[], [], "p"⟩ 1
      = .err .messageKeyNotFound :=
  ⟨by decide,
   (reinitialize_resets_message_keys modelPrims ⟨[("p", [1])]⟩ fseTwoKeys "p" [1]
     (by decide)).2.2 1 (by decide) ⟨[], [], "p"⟩⟩

/-- C3 (amended): an out-of-range `messageIndex` never yields a plaintext;
an index at or beyond the number of issued keys (or any index when the peer
has no entry) fails with the unknown-message-key error, while a negative
index instead hits the slice access `messageKeys[messageIndex]` and panics.
A plaintext can only be returned at an index inside the issued range. -/
theorem decryptMessage_out_of_range (π : Prims) (f : FSE) (userID : String)
    (encMsg : EncryptedMessage) (i : Int) :
    (∀ keys, lookupA f.messageKeys userID = some keys → (keys.length : Int) ≤ i →
       DecryptMessage π f userID encMsg i = .err .messageKeyNotFound) ∧
    (lookupA f.messageKeys userID = none →
       DecryptMessage π f userID encMsg i = .err .messageKeyNotFound) ∧
    (∀ keys, lookupA f.messageKeys userID = some keys → i < 0 →
       DecryptMessage π f userID encMsg i = .crash) ∧
    (∀ pt, DecryptMessage π f userID encMsg i = .ok pt →
       ∃ keys, lookupA f.messageKeys userID = some keys ∧
         0 ≤ i ∧ i < (keys.length : Int)) := by
  refine ⟨?_, ?_, ?_, ?_⟩
  · intro keys hk hle
    simp [DecryptMessage, hk, hle]
  · intro hk
    simp [DecryptMessage, hk]
  · intro keys hk hneg
    have hle : ¬((keys.length : Int) ≤ i) := by omega
    simp [DecryptMessage, hk, hle, hneg]
  · intro pt hok
    unfold DecryptMessage at hok
    rcases hl : lookupA f.messageKeys userID with _ | keys
    · rw [hl] at hok
      simp at hok
    · rw [hl] at hok
      simp only at hok
      by_cases h1 : (keys.length : Int) ≤ i
      · rw [if_pos h1] at hok
        simp at hok
      · rw [if_neg h1] at hok
        by_cases h2 : i < 0
        · rw [if_pos h2] at hok
          simp at hok
        · exact ⟨keys, rfl, by omega, by omega⟩

theorem decryptMessage_out_of_range_witness :
    lookupA fseTwoKeys.messageKeys "p" = some [key256 3, key256 4] ∧
    DecryptMessage modelPrims fseTwoKeys "p" ⟨[], [], "p"⟩ 5
      = .err .messageKeyNotFound :=
  ⟨by decide,
   (decryptMessage_out_of_range modelPrims fseTwoKeys "p" ⟨[], [], "p"⟩ 5).1
     [key256 3, key256 4] (by decide) (by decide)⟩

/-- C3 counterexample: with two issued keys for `"p"`, the out-of-range index
`-1` makes `DecryptMessage` panic on the slice access instead of failing with
the unknown-message-key error, so not every out-of-range index fails with
that error. -/
theorem decryptMessage_negative_index_panics :
    DecryptMessage modelPrims fseTwoKeys "p" ⟨[], [], "p"⟩ (-1) = .crash ∧
    (GoResult.crash : GoResult (List Nat)) ≠ .err .messageKeyNotFound := by
  constructor
  · decide
  · decide

/-- C7: `GetPeers` returns exactly the table entries whose `lastSeen` lies
strictly within the five-minute window (`now - lastSeen < 5min`); an entry at
or past the threshold contributes nothing. Every returned entry is marked
online, and the mark is also applied to the table entry (side effect). -/
theorem getPeers_liveness_window (s : DiscoveryState) (now : Int) :
    (∀ kv ∈ s.peers, now - kv.2.lastSeen < fiveMinutes →
       { kv.2 with online := true } ∈ (GetPeers s now).1) ∧
    (∀ q ∈ (GetPeers s now).1, q.online = true ∧
       ∃ kv ∈ s.peers, now - kv.2.lastSeen < fiveMinutes ∧
         q = { kv.2 with online := true }) ∧
    (∀ kv ∈ s.peers, now - kv.2.lastSeen < fiveMinutes →
       (kv.1, { kv.2 with online := true }) ∈ (GetPeers s now).2.peers) := by
  refine ⟨?_, ?_, ?_⟩
  · intro kv hkv hfresh
    refine List.mem_filterMap.mpr ⟨kv, hkv, ?_⟩
    rw [if_pos hfresh]
  · intro q hq
    obtain ⟨kv, hkv, hf⟩ := List.mem_filterMap.mp hq
    by_cases hfresh : now - kv.2.lastSeen < fiveMinutes
    · rw [if_pos hfresh] at hf
      obtain rfl : { kv.2 with online := true } = q := Option.some.inj hf
      exact ⟨rfl, kv, hkv, hfresh, rfl⟩
    · rw [if_neg hfresh] at hf
      exact absurd hf (by simp)
  · intro kv hkv hfresh
    refine List.mem_map.mpr ⟨kv, hkv, ?_⟩
    rw [if_pos hfresh]

theorem getPeers_liveness_window_witness :
    ((0 : Int) + fiveMinutes) - (⟨"10.0.0.2", userB, 1000000000, false⟩ : PeerInfo).lastSeen
      < fiveMinutes ∧
    (⟨"10.0.0.2", userB, 1000000000, true⟩ : PeerInfo)
      ∈ (GetPeers ⟨[("peerB", ⟨"10.0.0.2", userB, 1000000000, false⟩),
                    ("peerA", ⟨"10.0.0.1", userA, 0, false⟩)], localUserM⟩
          (0 + fiveMinutes)).1 ∧
    (⟨"10.0.0.1", userA, 0, true⟩ : PeerInfo)
      ∉ (GetPeers ⟨[("peerB", ⟨"10.0.0.2", userB, 1000000000, false⟩),
                    ("peerA", ⟨"10.0.0.1", userA, 0, false⟩)], localUserM⟩
          (0 + fiveMinutes)).1 :=
  ⟨by decide,
   (getPeers_liveness_window
      ⟨[("peerB", ⟨"10.0.0.2", userB, 1000000000, false⟩),
        ("peerA", ⟨"10.0.0.1", userA, 0, false⟩)], localUserM⟩ (0 + fiveMinutes)).1
     ("peerB", ⟨"10.0.0.2", userB, 1000000000, false⟩) (by decide) (by decide),
   by decide⟩

/-- C8: a received discovery datagram that fails to deserialize, or whose
sender id equals the local id, is discarded with the table unchanged and
nothing sent; otherwise the sender's table entry is created or overwritten
with the observed source address and the fresh receive time (other entries
untouched), and a unicast response is sent back exactly when the datagram
type is `announce`. -/
theorem listenStep_spec (π : Prims) (s : DiscoveryState) (raw : List Nat)
    (addrIP addrFull : String) (now : Int) :
    (π.unmarshalDiscovery raw = none →
       listenStep π s raw addrIP addrFull now = (s, [])) ∧
    (∀ msg, π.unmarshalDiscovery raw = some msg → msg.user.id = s.localUser.id →
       listenStep π s raw addrIP addrFull now = (s, [])) ∧
    (∀ msg, π.unmarshalDiscovery raw = some msg → msg.user.id ≠ s.localUser.id →
       lookupA (listenStep π s raw addrIP addrFull now).1.peers msg.user.id
         = some ⟨addrIP, msg.user, now, true⟩ ∧
       (∀ id, id ≠ msg.user.id →
          lookupA (listenStep π s raw addrIP addrFull now).1.peers id
            = lookupA s.peers id) ∧
       (msg.type = "announce" →
          (listenStep π s raw addrIP addrFull now).2
            = [⟨⟨"response", s.localUser, now⟩, addrFull⟩]) ∧
       (msg.type ≠ "announce" →
          (listenStep π s raw addrIP addrFull now).2 = [])) := by
  refine ⟨?_, ?_, ?_⟩
  · intro h
    simp [listenStep, h]
  · intro msg hm hid
    simp [listenStep, hm, hid]
  · intro msg hm hid
    refine ⟨?_, ?_, ?_, ?_⟩
    · simp [listenStep, hm, hid, handleDiscoveryMessage, lookupA_upsert_self]
    · intro id hne
      simp [listenStep, hm, hid, handleDiscoveryMessage, lookupA_upsert_ne _ _ _ _ hne]
    · intro ht
      simp [listenStep, hm, hid, handleDiscoveryMessage, ht]
    · intro ht
      simp [listenStep, hm, hid, handleDiscoveryMessage, ht]

theorem listenStep_spec_witness :
    mUnmarshalDiscovery [1] = some ⟨"announce", userB, 0⟩ ∧
    lookupA (listenStep modelPrims ⟨[], localUserM⟩ [1] "10.0.0.2" "10.0.0.2:9001" 77).1.peers
        "peerB" = some ⟨"10.0.0.2", userB, 77, true⟩ ∧
    (listenStep modelPrims ⟨[], localUserM⟩ [1] "10.0.0.2" "10.0.0.2:9001" 77).2
      = [⟨⟨"response", localUserM, 77⟩, "10.0.0.2:9001"⟩] ∧
    (listenStep modelPrims ⟨[], localUserM⟩ [3] "10.0.0.9" "10.0.0.9:9001" 77
      = (⟨[], localUserM⟩, [])) :=
  ⟨by decide,
   ((listenStep_spec modelPrims ⟨[], localUserM⟩ [1] "10.0.0.2" "10.0.0.2:9001" 77).2.2
     ⟨"announce", userB, 0⟩ (by decide) (by decide)).1,
   ((listenStep_spec modelPrims ⟨[], localUserM⟩ [1] "10.0.0.2" "10.0.0.2:9001" 77).2.2
     ⟨"announce", userB, 0⟩ (by decide) (by decide)).2.2.1 (by decide),
   (listenStep_spec modelPrims ⟨[], localUserM⟩ [3] "10.0.0.9" "10.0.0.9:9001" 77).2.1
     ⟨"announce", localUserM, 0⟩ (by decide) (by decide)⟩

theorem performHandshake_verified {π : Prims} {io : ConnIO} {now : Int}
    {peer : EnhancedPeer} (h : performHandshake π io now = .ok peer) :
    peer.verified = true := by
  obtain ⟨u, t, v⟩ := peer
  by_cases hsend : io.sendOk = true
  · rcases hr : io.recvLine with _ | line
    · simp [performHandshake, hsend, hr] at h
    · rcases hu : π.unmarshalHandshake line with _ | hd
      · simp [performHandshake, hsend, hr, hu] at h
      · simp [performHandshake, hsend, hr, hu] at h
        exact h.2.2
  · simp [performHandshake, hsend] at h

/-- C6: given that the outbound handshake write succeeds, the handshake fails
exactly when the connection yields no complete line or the line fails to
parse; every parseable handshake payload — whatever its `version` field
holds — succeeds and registers a session under the claimed id, so the
declared protocol version never causes a handshake failure. -/
theorem handshake_version_advisory (π : Prims) (s : NetState) (io : ConnIO)
    (now : Int) (hsend : io.sendOk = true) :
    ((∃ e, performHandshake π io now = .error e) ↔
       (io.recvLine = none ∨
        ∃ line, io.recvLine = some line ∧ π.unmarshalHandshake line = none)) ∧
    (∀ line hs, io.recvLine = some line → π.unmarshalHandshake line = some hs →
       performHandshake π io now = .ok ⟨hs.user, now, true⟩ ∧
       lookupA (handleConnection π s io now).2.peers hs.user.id
         = some ⟨hs.user, now, true⟩) := by
  constructor
  · constructor
    · intro ⟨e, he⟩
      rcases hr : io.recvLine with _ | line
      · left; rfl
      · rcases hu : π.unmarshalHandshake line with _ | hs
        · right; exact ⟨line, rfl, hu⟩
        · simp [performHandshake, hsend, hr, hu] at he
    · intro h
      rcases h with h | ⟨line, hl, hu⟩
      · exact ⟨.readFailed, by simp [performHandshake, hsend, h]⟩
      · exact ⟨.parseFailed, by simp [performHandshake, hsend, hl, hu]⟩
  · intro line hs hl hu
    have hph : performHandshake π io now = .ok ⟨hs.user, now, true⟩ := by
      simp [performHandshake, hsend, hl, hu]
    refine ⟨hph, ?_⟩
    simp only [handleConnection, hph]
    exact lookupA_upsert_self _ _ _

theorem handshake_version_advisory_witness :
    mUnmarshalHandshake [2] = some ⟨userA, "99.7", 0⟩ ∧
    performHandshake modelPrims ⟨true, some [2]⟩ 5 = .ok ⟨userA, 5, true⟩ ∧
    lookupA (handleConnection modelPrims ⟨[]⟩ ⟨true, some [2]⟩ 5).2.peers "peerA"
      = some ⟨userA, 5, true⟩ :=
  ⟨by decide,
   ((handshake_version_advisory modelPrims ⟨[]⟩ ⟨true, some [2]⟩ 5 rfl).2
     [2] ⟨userA, "99.7", 0⟩ rfl (by decide)).1,
   ((handshake_version_advisory modelPrims ⟨[]⟩ ⟨true, some [2]⟩ 5 rfl).2
     [2] ⟨userA, "99.7", 0⟩ rfl (by decide)).2⟩

/-- C10 (implicit): in every reachable session-table state every stored
session is marked verified — the handshake sets `Verified: true` for every
parseable payload without checking that the claimed id matches the presented
public key, so a session under any claimed id is registered as verified. -/
theorem sessions_always_verified (π : Prims) (s : NetState)
    (h : ReachableNet π s) :
    (∀ kv ∈ s.peers, kv.2.verified = true) ∧
    (∀ (io : ConnIO) (now : Int) (line : List Nat) (hs : HandshakeData),
       io.sendOk = true → io.recvLine = some line →
       π.unmarshalHandshake line = some hs →
       lookupA (applyNetEvent π s (.connect io now)).peers hs.user.id
         = some ⟨hs.user, now, true⟩) := by
  constructor
  · induction h with
    | init => intro kv hkv; exact absurd hkv (by simp)
    | step e hs ih =>
      rename_i s'
      intro kv hkv
      cases e with
      | connect io now =>
        simp only [applyNetEvent] at hkv
        rcases hph : performHandshake π io now with err | peer
        · simp only [handleConnection, hph] at hkv
          exact ih kv hkv
        · simp only [handleConnection, hph] at hkv
          rcases mem_upsert kv hkv with hold | hnew
          · exact ih kv hold
          · rw [hnew]
            exact performHandshake_verified hph
      | disconnect id =>
        simp only [applyNetEvent] at hkv
        exact ih kv (List.mem_of_mem_filter hkv)
      | messageFrom id now =>
        simp only [applyNetEvent] at hkv
        obtain ⟨kv', hkv', heq⟩ := List.mem_map.mp hkv
        by_cases hid : kv'.1 = id
        · rw [if_pos hid] at heq
          rw [← heq]
          exact ih kv' hkv'
        · rw [if_neg hid] at heq
          rw [← heq]
          exact ih kv' hkv'
  · intro io now line hs hsend hrecv hu
    have hph : performHandshake π io now = .ok ⟨hs.user, now, true⟩ := by
      simp [performHandshake, hsend, hrecv, hu]
    simp only [applyNetEvent, handleConnection, hph]
    exact lookupA_upsert_self _ _ _

theorem sessions_always_verified_witness :
    lookupA (applyNetEvent modelPrims ⟨[]⟩ (.connect ⟨true, some [1]⟩ 9)).peers "peerA"
      = some ⟨userA, 9, true⟩ :=
  (sessions_always_verified modelPrims ⟨[]⟩ ReachableNet.init).2
    ⟨true, some [1]⟩ 9 [1] ⟨userA, "1.0", 0⟩ rfl rfl (by decide)

theorem append_chain_ne_append_advance (a b : List Nat) :
    a ++ chainTag ≠ b ++ advanceTag := by
  intro h
  have hc : chainTag.getLast? = some 110 := rfl
  have ha : advanceTag.getLast? = some 101 := rfl
  have h2 := congrArg List.getLast? h
  rw [List.getLast?_append, List.getLast?_append, hc, ha] at h2
  simp [Option.or] at h2

/-- `decryptWithKey` on a well-formed envelope reduces to the AEAD open. -/
theorem decryptWithKey_eval (π : Prims) (key n ct : List Nat) (kid : String)
    (hk : key.length = 32) (hnB : ∀ x ∈ n, x < 256) (hctB : ∀ x ∈ ct, x < 256) :
    decryptWithKey π key ⟨hexEncode n, hexEncode ct, kid⟩
      = match π.gcmOpen key n ct with
        | none => .error .authenticationFailed
        | some pt => .ok pt := by
  simp [decryptWithKey, hexDecode_hexEncode n hnB, hexDecode_hexEncode ct hctB, hk]

/-- `DecryptMessage` at an in-range nonnegative index uses exactly the issued
key at that index. -/
theorem decryptMessage_eval (π : Prims) (f : FSE) (u : String)
    (keys : List (List Nat)) (hkeys : lookupA f.messageKeys u = some keys)
    (j : Nat) (hj : j < keys.length) (encMsg : EncryptedMessage) :
    DecryptMessage π f u encMsg (j : Int)
      = match decryptWithKey π (keys.getD j []) encMsg with
        | .ok pt => .ok pt
        | .error e => .err e := by
  have h1 : ¬((keys.length : Int) ≤ (j : Int)) := by omega
  have h2 : ¬((j : Int) < 0) := by omega
  simp [DecryptMessage, hkeys, h1, h2]

/-- C1: for a peer `u` whose shared key is established (so `EstablishSharedKey`
succeeded and stored `sk`) and whose ratchet initialization succeeds, two
successive `EncryptMessage` calls issue distinct message keys `k0 ≠ k1`; the
stored chain key is replaced before each call returns (`c0 → c1 → c2`, all
successive values distinct); the key issued by call i is stored at index i of
the issued sequence; each envelope decrypts exactly at its own index, fails
authentication at the other issued index, and hits the unknown-message-key
error at any index past the issued range. The `hinjA`/`hinjB`/`hinjC`
hypotheses state that SHA-256 does not collide on the concrete derivation
inputs involved; the remaining hypotheses are the documented AES-GCM and
SHA-256 interface contracts. -/
theorem ratchet_advance_distinct_keys (π : Prims) (km : KeyManager) (f : FSE)
    (u : String) (sk m1 m2 n1 n2 c0 c1 c2 k0 k1 : List Nat) (f1 f2 f3 : FSE)
    (hc0 : c0 = π.sha256 (sk ++ chainTag))
    (hc1 : c1 = π.sha256 (c0 ++ advanceTag))
    (hc2 : c2 = π.sha256 (c1 ++ advanceTag))
    (hk0 : k0 = π.sha256 (c0 ++ messageTag))
    (hk1 : k1 = π.sha256 (c1 ++ messageTag))
    (hsk : lookupA km.peerKeys u = some sk)
    (hf1 : f1 = (InitializeWithPeer π km f u).2)
    (hf2 : f2 = (EncryptMessage π f1 u m1 n1).2)
    (hf3 : f3 = (EncryptMessage π f2 u m2 n2).2)
    (hlen : ∀ x, (π.sha256 x).length = 32)
    (hHB : ∀ x, ∀ y ∈ π.sha256 x, y < 256)
    (hcorrect : ∀ k n p, k.length = 32 → n.length = 12 →
       π.gcmOpen k n (π.gcmSeal k n p) = some p)
    (hwk : ∀ k k' n p, k.length = 32 → k'.length = 32 → n.length = 12 → k' ≠ k →
       π.gcmOpen k' n (π.gcmSeal k n p) = none)
    (hsealB : ∀ k n p, (∀ x ∈ k, x < 256) → (∀ x ∈ n, x < 256) →
       (∀ x ∈ p, x < 256) → ∀ x ∈ π.gcmSeal k n p, x < 256)
    (hinjA : c0 = c1 → sk ++ chainTag = c0 ++ advanceTag)
    (hinjB : c1 = c2 → c0 ++ advanceTag = c1 ++ advanceTag)
    (hinjC : k0 = k1 → c0 ++ messageTag = c1 ++ messageTag)
    (hn1 : n1.length = 12) (hn2 : n2.length = 12)
    (hn1B : ∀ x ∈ n1, x < 256) (hn2B : ∀ x ∈ n2, x < 256)
    (hm1B : ∀ x ∈ m1, x < 256) (hm2B : ∀ x ∈ m2, x < 256) :
    (InitializeWithPeer π km f u).1 = none ∧
    lookupA f1.chainKeys u = some c0 ∧
    (c1 ≠ c0 ∧ c2 ≠ c1 ∧ k0 ≠ k1) ∧
    (EncryptMessage π f1 u m1 n1).1
      = .ok ⟨hexEncode n1, hexEncode (π.gcmSeal k0 n1 m1), u⟩ ∧
    lookupA f2.chainKeys u = some c1 ∧
    (EncryptMessage π f2 u m2 n2).1
      = .ok ⟨hexEncode n2, hexEncode (π.gcmSeal k1 n2 m2), u⟩ ∧
    lookupA f3.chainKeys u = some c2 ∧
    lookupA f3.messageKeys u = some [k0, k1] ∧
    DecryptMessage π f3 u ⟨hexEncode n1, hexEncode (π.gcmSeal k0 n1 m1), u⟩ 0
      = .ok m1 ∧
    DecryptMessage π f3 u ⟨hexEncode n1, hexEncode (π.gcmSeal k0 n1 m1), u⟩ 1
      = .err .authenticationFailed ∧
    DecryptMessage π f3 u ⟨hexEncode n2, hexEncode (π.gcmSeal k1 n2 m2), u⟩ 1
      = .ok m2 ∧
    DecryptMessage π f3 u ⟨hexEncode n2, hexEncode (π.gcmSeal k1 n2 m2), u⟩ 0
      = .err .authenticationFailed ∧
    (∀ i : Int, 2 ≤ i →
       DecryptMessage π f3 u ⟨hexEncode n1, hexEncode (π.gcmSeal k0 n1 m1), u⟩ i
         = .err .messageKeyNotFound) := by
  have hc1c0 : c1 ≠ c0 := by
    intro h
    exact append_chain_ne_append_advance sk c0 (hinjA h.symm)
  have hc2c1 : c2 ≠ c1 := by
    intro h
    exact hc1c0 (List.append_cancel_right (hinjB h.symm)).symm
  have hk0k1 : k0 ≠ k1 := by
    intro h
    exact hc1c0 (List.append_cancel_right (hinjC h)).symm
  have hk0len : k0.length = 32 := by rw [hk0]; exact hlen _
  have hk1len : k1.length = 32 := by rw [hk1]; exact hlen _
  have hA2 : lookupA f1.chainKeys u = some c0 := by
    rw [hf1]
    simp [InitializeWithPeer, hsk, lookupA_upsert_self, hc0]
  have hA2m : lookupA f1.messageKeys u = some [] := by
    rw [hf1]
    simp [InitializeWithPeer, hsk, lookupA_upsert_self]
  have he1 : EncryptMessage π f1 u m1 n1
      = (.ok ⟨hexEncode n1, hexEncode (π.gcmSeal k0 n1 m1), u⟩,
         ⟨f1.rootKeys, upsert f1.chainKeys u c1, upsert f1.messageKeys u [k0]⟩) := by
    simp [EncryptMessage, hA2, hA2m, encryptWithKey, hk0len, ← hk0, ← hc1]
  have hf2' : f2 = ⟨f1.rootKeys, upsert f1.chainKeys u c1, upsert f1.messageKeys u [k0]⟩ := by
    rw [hf2, he1]
  have hA5 : lookupA f2.chainKeys u = some c1 := by
    rw [hf2']
    exact lookupA_upsert_self _ _ _
  have hA5m : lookupA f2.messageKeys u = some [k0] := by
    rw [hf2']
    exact lookupA_upsert_self _ _ _
  have he2 : EncryptMessage π f2 u m2 n2
      = (.ok ⟨hexEncode n2, hexEncode (π.gcmSeal k1 n2 m2), u⟩,
         ⟨f2.rootKeys, upsert f2.chainKeys u c2, upsert f2.messageKeys u [k0, k1]⟩) := by
    simp [EncryptMessage, hA5, hA5m, encryptWithKey, hk1len, ← hk1, ← hc2]
  have hf3' : f3 = ⟨f2.rootKeys, upsert f2.chainKeys u c2, upsert f2.messageKeys u [k0, k1]⟩ := by
    rw [hf3, he2]
  have hA7 : lookupA f3.chainKeys u = some c2 := by
    rw [hf3']
    exact lookupA_upsert_self _ _ _
  have hA8 : lookupA f3.messageKeys u = some [k0, k1] := by
    rw [hf3']
    exact lookupA_upsert_self _ _ _
  have hk0B : ∀ x ∈ k0, x < 256 := by rw [hk0]; exact hHB _
  have hk1B : ∀ x ∈ k1, x < 256 := by rw [hk1]; exact hHB _
  have hct1B : ∀ x ∈ π.gcmSeal k0 n1 m1, x < 256 := hsealB _ _ _ hk0B hn1B hm1B
  have hct2B : ∀ x ∈ π.gcmSeal k1 n2 m2, x < 256 := hsealB _ _ _ hk1B hn2B hm2B
  have hd10 : decryptWithKey π k0 ⟨hexEncode n1, hexEncode (π.gcmSeal k0 n1 m1), u⟩
      = .ok m1 := by
    rw [decryptWithKey_eval π k0 n1 _ u hk0len hn1B hct1B,
      hcorrect k0 n1 m1 hk0len hn1]
  have hd11 : decryptWithKey π k1 ⟨hexEncode n1, hexEncode (π.gcmSeal k0 n1 m1), u⟩
      = .error .authenticationFailed := by
    rw [decryptWithKey_eval π k1 n1 _ u hk1len hn1B hct1B,
      hwk k0 k1 n1 m1 hk0len hk1len hn1 (Ne.symm hk0k1)]
  have hd21 : decryptWithKey π k1 ⟨hexEncode n2, hexEncode (π.gcmSeal k1 n2 m2), u⟩
      = .ok m2 := by
    rw [decryptWithKey_eval π k1 n2 _ u hk1len hn2B hct2B,
      hcorrect k1 n2 m2 hk1len hn2]
  have hd20 : decryptWithKey π k0 ⟨hexEncode n2, hexEncode (π.gcmSeal k1 n2 m2), u⟩
      = .error .authenticationFailed := by
    rw [decryptWithKey_eval π k0 n2 _ u hk0len hn2B hct2B,
      hwk k1 k0 n2 m2 hk1len hk0len hn2 hk0k1]
  refine ⟨by simp [InitializeWithPeer, hsk], hA2, ⟨hc1c0, hc2c1, hk0k1⟩,
    congrArg Prod.fst he1, hA5, congrArg Prod.fst he2, hA7, hA8, ?_, ?_, ?_, ?_, ?_⟩
  · have h9 := decryptMessage_eval π f3 u [k0, k1] hA8 0 (by simp)
      ⟨hexEncode n1, hexEncode (π.gcmSeal k0 n1 m1), u⟩
    simpa [hd10] using h9
  · have h10 := decryptMessage_eval π f3 u [k0, k1] hA8 1 (by simp)
      ⟨hexEncode n1, hexEncode (π.gcmSeal k0 n1 m1), u⟩
    simpa [hd11] using h10
  · have h11 := decryptMessage_eval π f3 u [k0, k1] hA8 1 (by simp)
      ⟨hexEncode n2, hexEncode (π.gcmSeal k1 n2 m2), u⟩
    simpa [hd21] using h11
  · have h12 := decryptMessage_eval π f3 u [k0, k1] hA8 0 (by simp)
      ⟨hexEncode n2, hexEncode (π.gcmSeal k1 n2 m2), u⟩
    simpa [hd20] using h12
  · intro i hi
    simp only [DecryptMessage, hA8]
    rw [if_pos (show (([k0, k1].length : Nat) : Int) ≤ i by simp; omega)]

theorem ratchet_advance_distinct_keys_witness :
    key256 3 ≠ key256 4 ∧
    DecryptMessage modelPrims
        (EncryptMessage modelPrims
          (EncryptMessage modelPrims
            (InitializeWithPeer modelPrims ⟨[("p", [1])]⟩ ⟨[], [], []⟩ "p").2
            "p" [5] (List.replicate 12 1)).2
          "p" [6] (List.replicate 12 2)).2
        "p"
        ⟨hexEncode (List.replicate 12 1),
         hexEncode (tseal (key256 3) (List.replicate 12 1) [5]), "p"⟩ 0
      = .ok [5] ∧
    DecryptMessage modelPrims
        (EncryptMessage modelPrims
          (EncryptMessage modelPrims
            (InitializeWithPeer modelPrims ⟨[("p", [1])]⟩ ⟨[], [], []⟩ "p").2
            "p" [5] (List.replicate 12 1)).2
          "p" [6] (List.replicate 12 2)).2
        "p"
        ⟨hexEncode (List.replicate 12 1),
         hexEncode (tseal (key256 3) (List.replicate 12 1) [5]), "p"⟩ 1
      = .err .authenticationFailed := by
  have h := ratchet_advance_distinct_keys modelPrims ⟨[("p", [1])]⟩ ⟨[], [], []⟩ "p"
    [1] [5] [6] (List.replicate 12 1) (List.replicate 12 2)
    (key256 1) (key256 2) (key256 0) (key256 3) (key256 4)
    _ _ _
    (by decide) (by decide) (by decide) (by decide) (by decide) (by decide)
    rfl rfl rfl
    length_mhash mhash_bytes
    (fun k n p hk hn => topen_tseal k n p hk hn)
    (fun k k' n p hk hk' hn hne => topen_wrong_key k k' n p hk hk' hn hne)
    (fun k n p hkB hnB hpB => tseal_bytes hkB hnB hpB)
    (by decide) (by decide) (by decide)
    (by decide) (by decide) (by decide) (by decide) (by decide) (by decide)
  exact ⟨h.2.2.1.2.2, h.2.2.2.2.2.2.2.2.1, h.2.2.2.2.2.2.2.2.2.1⟩

/-- `decryptWithKey` with a well-formed nonce and an arbitrary ciphertext
string reduces to hex-decoding followed by the AEAD open. -/
theorem decryptWithKey_ct (π : Prims) (key n ct' : List Nat) (kid : String)
    (hk : key.length = 32) (hnB : ∀ x ∈ n, x < 256) :
    decryptWithKey π key ⟨hexEncode n, ct', kid⟩
      = match hexDecode ct' with
        | none => .error .invalidHex
        | some ct =>
          match π.gcmOpen key n ct with
          | none => .error .authenticationFailed
          | some pt => .ok pt := by
  rcases hct : hexDecode ct' with _ | ct <;>
    simp [decryptWithKey, hexDecode_hexEncode n hnB, hct, hk]

/-- C2 (amended): under an established 32-byte key, decryption inverts
encryption for every plaintext including the empty one, and decrypting the
envelope under any other (distinct) peer key fails with the authentication
error. Flipping one bit of one character of the transmitted ciphertext hex
string makes decryption fail — with an invalid-hex error if the flipped
character is no longer a hex digit, with an authentication failure if it is a
hex digit of a different value — EXCEPT when the flip toggles the letter-case
bit of a hex digit (Go's hex decoder is case-insensitive), in which case the
modified hex string decodes to the identical ciphertext and decryption
succeeds with the original plaintext. In every case, no single-character
modification can make decryption return an altered plaintext. -/
theorem roundtrip_wrongkey_and_hexflip (π : Prims) (key key' n m : List Nat)
    (kid : String)
    (hk : key.length = 32) (hk' : key'.length = 32) (hne : key' ≠ key)
    (hn : n.length = 12)
    (hkB : ∀ x ∈ key, x < 256) (hnB : ∀ x ∈ n, x < 256) (hmB : ∀ x ∈ m, x < 256)
    (hcorrect : ∀ k nn p, k.length = 32 → nn.length = 12 →
       π.gcmOpen k nn (π.gcmSeal k nn p) = some p)
    (hwk : ∀ k k2 nn p, k.length = 32 → k2.length = 32 → nn.length = 12 → k2 ≠ k →
       π.gcmOpen k2 nn (π.gcmSeal k nn p) = none)
    (htamper : ∀ k nn p i v, k.length = 32 → nn.length = 12 →
       i < (π.gcmSeal k nn p).length → v ≠ (π.gcmSeal k nn p).getD i 0 →
       π.gcmOpen k nn ((π.gcmSeal k nn p).set i v) = none)
    (hsealB : ∀ k nn p, (∀ x ∈ k, x < 256) → (∀ x ∈ nn, x < 256) →
       (∀ x ∈ p, x < 256) → ∀ x ∈ π.gcmSeal k nn p, x < 256) :
    encryptWithKey π key m kid n
      = .ok ⟨hexEncode n, hexEncode (π.gcmSeal key n m), kid⟩ ∧
    decryptWithKey π key ⟨hexEncode n, hexEncode (π.gcmSeal key n m), kid⟩
      = .ok m ∧
    decryptWithKey π key' ⟨hexEncode n, hexEncode (π.gcmSeal key n m), kid⟩
      = .error .authenticationFailed ∧
    (∀ i b, i < (hexEncode (π.gcmSeal key n m)).length → b < 8 →
      (hexVal ((hexEncode (π.gcmSeal key n m)).getD i 0 ^^^ 2 ^ b) = none →
        decryptWithKey π key ⟨hexEncode n,
            (hexEncode (π.gcmSeal key n m)).set i
              ((hexEncode (π.gcmSeal key n m)).getD i 0 ^^^ 2 ^ b), kid⟩
          = .error .invalidHex) ∧
      (∀ w, hexVal ((hexEncode (π.gcmSeal key n m)).getD i 0 ^^^ 2 ^ b) = some w →
        w = (if i % 2 = 0 then (π.gcmSeal key n m).getD (i / 2) 0 / 16
             else (π.gcmSeal key n m).getD (i / 2) 0 % 16) →
        decryptWithKey π key ⟨hexEncode n,
            (hexEncode (π.gcmSeal key n m)).set i
              ((hexEncode (π.gcmSeal key n m)).getD i 0 ^^^ 2 ^ b), kid⟩
          = .ok m) ∧
      (∀ w, hexVal ((hexEncode (π.gcmSeal key n m)).getD i 0 ^^^ 2 ^ b) = some w →
        w ≠ (if i % 2 = 0 then (π.gcmSeal key n m).getD (i / 2) 0 / 16
             else (π.gcmSeal key n m).getD (i / 2) 0 % 16) →
        decryptWithKey π key ⟨hexEncode n,
            (hexEncode (π.gcmSeal key n m)).set i
              ((hexEncode (π.gcmSeal key n m)).getD i 0 ^^^ 2 ^ b), kid⟩
          = .error .authenticationFailed)) ∧
    (∀ i v q, decryptWithKey π key
        ⟨hexEncode n, (hexEncode (π.gcmSeal key n m)).set i v, kid⟩ = .ok q →
      q = m) := by
  have hctB : ∀ x ∈ π.gcmSeal key n m, x < 256 := hsealB _ _ _ hkB hnB hmB
  have hjlt : ∀ i, i < (hexEncode (π.gcmSeal key n m)).length →
      i / 2 < (π.gcmSeal key n m).length := by
    intro i hi
    rw [length_hexEncode] at hi
    omega
  have hrt : decryptWithKey π key ⟨hexEncode n, hexEncode (π.gcmSeal key n m), kid⟩
      = .ok m := by
    rw [decryptWithKey_eval π key n _ kid hk hnB hctB, hcorrect key n m hk hn]
  have hflipN : ∀ i v, i < (hexEncode (π.gcmSeal key n m)).length →
      hexVal v = none →
      decryptWithKey π key
          ⟨hexEncode n, (hexEncode (π.gcmSeal key n m)).set i v, kid⟩
        = .error .invalidHex := by
    intro i v hi hv
    rw [decryptWithKey_ct π key n _ kid hk hnB,
      hexDecode_set (π.gcmSeal key n m) hctB i hi v, hv]
  have hflipY : ∀ i v w, i < (hexEncode (π.gcmSeal key n m)).length →
      hexVal v = some w →
      w = (if i % 2 = 0 then (π.gcmSeal key n m).getD (i / 2) 0 / 16
           else (π.gcmSeal key n m).getD (i / 2) 0 % 16) →
      decryptWithKey π key
          ⟨hexEncode n, (hexEncode (π.gcmSeal key n m)).set i v, kid⟩
        = .ok m := by
    intro i v w hi hv hw
    rw [decryptWithKey_ct π key n _ kid hk hnB,
      hexDecode_set (π.gcmSeal key n m) hctB i hi v, hv]
    have hnb : (if i % 2 = 0
          then 16 * w + (π.gcmSeal key n m).getD (i / 2) 0 % 16
          else 16 * ((π.gcmSeal key n m).getD (i / 2) 0 / 16) + w)
        = (π.gcmSeal key n m).getD (i / 2) 0 := by
      by_cases hp : i % 2 = 0 <;> simp [hp] at hw ⊢ <;> omega
    simp only [hnb, set_getD_self, hcorrect key n m hk hn]
  have hflipX : ∀ i v w, i < (hexEncode (π.gcmSeal key n m)).length →
      hexVal v = some w →
      w ≠ (if i % 2 = 0 then (π.gcmSeal key n m).getD (i / 2) 0 / 16
           else (π.gcmSeal key n m).getD (i / 2) 0 % 16) →
      decryptWithKey π key
          ⟨hexEncode n, (hexEncode (π.gcmSeal key n m)).set i v, kid⟩
        = .error .authenticationFailed := by
    intro i v w hi hv hw
    rw [decryptWithKey_ct π key n _ kid hk hnB,
      hexDecode_set (π.gcmSeal key n m) hctB i hi v, hv]
    have hnb : (if i % 2 = 0
          then 16 * w + (π.gcmSeal key n m).getD (i / 2) 0 % 16
          else 16 * ((π.gcmSeal key n m).getD (i / 2) 0 / 16) + w)
        ≠ (π.gcmSeal key n m).getD (i / 2) 0 := by
      by_cases hp : i % 2 = 0 <;> simp [hp] at hw ⊢ <;> omega
    simp only [htamper key n m (i / 2) _ hk hn (hjlt i hi) hnb]
  refine ⟨?_, hrt, ?_, ?_, ?_⟩
  · rw [encryptWithKey, if_pos (Or.inr (Or.inr hk))]
  · rw [decryptWithKey_eval π key' n _ kid hk' hnB hctB,
      hwk key key' n m hk hk' hn hne]
  · intro i b hi hb
    exact ⟨hflipN i _ hi,
      fun w hv hw => hflipY i _ w hi hv hw,
      fun w hv hw => hflipX i _ w hi hv hw⟩
  · intro i v q hq
    by_cases hi : i < (hexEncode (π.gcmSeal key n m)).length
    · rcases hv : hexVal v with _ | w
      · rw [hflipN i v hi hv] at hq
        exact absurd hq (by simp)
      · by_cases hw : w = (if i % 2 = 0 then (π.gcmSeal key n m).getD (i / 2) 0 / 16
            else (π.gcmSeal key n m).getD (i / 2) 0 % 16)
        · rw [hflipY i v w hi hv hw] at hq
          exact (Except.ok.inj hq).symm
        · rw [hflipX i v w hi hv hw] at hq
          exact absurd hq (by simp)
    · rw [List.set_eq_of_length_le (by omega)] at hq
      rw [hrt] at hq
      exact (Except.ok.inj hq).symm

theorem roundtrip_wrongkey_and_hexflip_witness :
    decryptWithKey modelPrims (key256 0)
        ⟨hexEncode (List.replicate 12 0),
         hexEncode (tseal (key256 0) (List.replicate 12 0) [10]), "p"⟩ = .ok [10] ∧
    decryptWithKey modelPrims (key256 0)
        ⟨hexEncode (List.replicate 12 0),
         hexEncode (tseal (key256 0) (List.replicate 12 0) []), "p"⟩ = .ok [] ∧
    decryptWithKey modelPrims (key256 9)
        ⟨hexEncode (List.replicate 12 0),
         hexEncode (tseal (key256 0) (List.replicate 12 0) [10]), "p"⟩
      = .error .authenticationFailed ∧
    decryptWithKey modelPrims (key256 0)
        ⟨hexEncode (List.replicate 12 0),
         (hexEncode (tseal (key256 0) (List.replicate 12 0) [10])).set 1
           ((hexEncode (tseal (key256 0) (List.replicate 12 0) [10])).getD 1 0 ^^^ 2 ^ 5),
         "p"⟩ = .ok [10] := by
  have h := roundtrip_wrongkey_and_hexflip modelPrims (key256 0) (key256 9)
    (List.replicate 12 0) [10] "p"
    (by decide) (by decide) (by decide) (by decide)
    (by decide) (by decide) (by decide)
    (fun k nn p hk hn => topen_tseal k nn p hk hn)
    (fun k k2 nn p hk hk2 hn hne => topen_wrong_key k k2 nn p hk hk2 hn hne)
    (fun k nn p i v hk hn hi hv => topen_tamper k nn p hk hn i v hi hv)
    (fun k nn p hkB hnB hpB => tseal_bytes hkB hnB hpB)
  have he := roundtrip_wrongkey_and_hexflip modelPrims (key256 0) (key256 9)
    (List.replicate 12 0) [] "p"
    (by decide) (by decide) (by decide) (by decide)
    (by decide) (by decide) (by decide)
    (fun k nn p hk hn => topen_tseal k nn p hk hn)
    (fun k k2 nn p hk hk2 hn hne => topen_wrong_key k k2 nn p hk hk2 hn hne)
    (fun k nn p i v hk hn hi hv => topen_tamper k nn p hk hn i v hi hv)
    (fun k nn p hkB hnB hpB => tseal_bytes hkB hnB hpB)
  exact ⟨h.2.1, he.2.1, h.2.2.1,
    (h.2.2.2.1 1 5 (by decide) (by decide)).2.1 10 (by decide) (by decide)⟩

/-- C2 counterexample: flipping one bit (bit 5 of the character at position 1,
turning the hex digit `a` into `A`) of the transmitted ciphertext hex string
produces a genuinely modified string whose decryption at the correct key
SUCCEEDS with the original plaintext instead of failing with an
authentication error, because Go's hex decoder accepts both letter cases. -/
theorem hexflip_case_toggle_counterexample :
    (hexEncode (tseal (key256 0) (List.replicate 12 0) [10])).getD 1 0 = 97 ∧
    (97 : Nat) ^^^ 2 ^ 5 = 65 ∧
    (hexEncode (tseal (key256 0) (List.replicate 12 0) [10])).set 1 65
      ≠ hexEncode (tseal (key256 0) (List.replicate 12 0) [10]) ∧
    encryptWithKey modelPrims (key256 0) [10] "p" (List.replicate 12 0)
      = .ok ⟨hexEncode (List.replicate 12 0),
             hexEncode (tseal (key256 0) (List.replicate 12 0) [10]), "p"⟩ ∧
    decryptWithKey modelPrims (key256 0)
        ⟨hexEncode (List.replicate 12 0),
         (hexEncode (tseal (key256 0) (List.replicate 12 0) [10])).set 1 65, "p"⟩
      = .ok [10] := by
  refine ⟨by decide, by decide, by decide, by rfl, by rfl⟩
